import Mathlib

/-!
Shallow embedding of the SoftwareSerial bit-banged UART engine
(SoftwareSerial.cpp) and verification of its specification claims.

The embedding models the receive reconstructor (rxBits), the edge-capture
interrupt handler (rxRead), the consumer API (read, peek, available, flush),
registration (begin), reception enable switching (enableRx, enableTx) and the
transmit engine (write).  32-bit cycle-counter arithmetic is modelled with
Nat reduced mod 2^32 and reinterpreted as int32 where the source casts.
GPIO pin writes and microsecond delays are external collaborators; the
transmit engine is therefore modelled by the sequence of coalesced
(level, duration-in-cycles) holds it emits through writePeriod, and the
interrupt handler by an explicit (cycle, level) parameter.
-/

set_option linter.unusedVariables false

namespace SoftSerial

/-- 2^32: modulus of the 32-bit cycle counter. -/
def two32 : Nat := 4294967296

/-- 2^31: threshold where a uint32 reinterpreted as int32 turns negative. -/
def two31 : Nat := 2147483648

/-- Wrapping uint32 subtraction a - b. -/
def u32sub (a b : Nat) : Nat := (a % two32 + two32 - b % two32) % two32

/-- static_cast<int32_t> of a uint32 value. -/
def toInt32 (v : Nat) : Int := if v % two32 < two31 then ((v % two32 : Nat) : Int) else ((v % two32 : Nat) : Int) - (two32 : Int)

/-- The state of one SoftwareSerial instance (fields m_... of the C++ class),
    together with the process-wide registration table ObjList (objList, with a
    slot abstracted to an occupancy flag) and the attach/detach state of the
    edge interrupt (intAttached).  The malloc results m_buffer/m_isrBuffer are
    split into an allocation-success flag (hasBuffer/hasIsrBuffer) and the
    array contents as a function from index to stored value. -/
structure SwsState where
  invert : Bool
  bitCycles : Nat
  bufSize : Nat
  buffer : Nat → Nat
  inPos : Nat
  outPos : Nat
  isrBufSize : Nat
  isrBuffer : Nat → Nat
  isrInPos : Nat
  isrOutPos : Nat
  rxCurBit : Int
  rxCurByte : Nat
  isrLastCycle : Nat
  isrOverflow : Bool
  overflow : Bool
  rxValid : Bool
  txValid : Bool
  rxEnabled : Bool
  oneWire : Bool
  intTxEnabled : Bool
  intAttached : Bool
  hasBuffer : Bool
  hasIsrBuffer : Bool
  swsInstsIdx : Int
  objList : List Bool

/-- One iteration of the inner do-while loop of rxBits (lines 397-441).
    Returns (reachedContinue, remaining cycles, state): reachedContinue is
    true when the C iteration ended in continue (so the while condition
    cycles >= 0 is re-checked) and false when it ended in break. -/
def bitStep (level : Bool) (cycles : Int) (s : SwsState) : Bool × Int × SwsState :=
  if -1 ≤ s.rxCurBit ∧ s.rxCurBit < 7 then
    -- data bits
    let p :=
      if (s.bitCycles : Int) ≤ cycles then
        -- preceding masked bits; int division of the nonnegative cycles
        let hidden0 : Nat := cycles.toNat / s.bitCycles
        let hidden : Nat := if 7 - s.rxCurBit < (hidden0 : Int) then (7 - s.rxCurBit).toNat else hidden0
        let acc := s.rxCurByte >>> hidden
        -- masked bits have same level as last unmasked bit (uint8 truncation of 0xff << (8-hidden))
        let acc := if s.rxCurByte &&& 128 ≠ 0 then acc ||| ((255 <<< (8 - hidden)) &&& 255) else acc
        (cycles - (hidden : Int) * (s.bitCycles : Int),
         { s with rxCurByte := acc, rxCurBit := s.rxCurBit + (hidden : Int) })
      else (cycles, s)
    let cycles1 := p.1
    let s1 := p.2
    if s1.rxCurBit < 7 then
      let acc := s1.rxCurByte >>> 1
      let acc := if level then acc ||| 128 else acc
      (true, cycles1 - (s1.bitCycles : Int),
       { s1 with rxCurBit := s1.rxCurBit + 1, rxCurByte := acc })
    else
      (true, cycles1, s1)
  else if s.rxCurBit = 7 then
    -- all 8 data bits received: store the byte unless the buffer is full
    let cycles1 := cycles - (s.bitCycles : Int)
    let next := (s.inPos + 1) % s.bufSize
    if next ≠ s.outPos then
      (true, cycles1,
       { s with rxCurBit := 8,
                buffer := Function.update s.buffer s.inPos s.rxCurByte,
                rxCurByte := 0, inPos := next })
    else
      (true, cycles1, { s with rxCurBit := 8, overflow := true })
  else
    -- idle: a low level is a start bit; then break
    (false, cycles, if s.rxCurBit = 8 ∧ level = false then { s with rxCurBit := -1 } else s)

/-- The do-while loop of rxBits, with fuel.  processEvent always supplies
    fuel cycles.toNat + 2, which is enough whenever bitCycles >= 1 because
    every continue-iteration decreases cycles by at least bitCycles. -/
def bitLoop : Nat → Bool → Int → SwsState → SwsState
  | 0, _, _, s => s
  | f + 1, level, cycles, s =>
    let r := bitStep level cycles s
    if r.1 then (if 0 ≤ r.2.1 then bitLoop f level r.2.1 r.2.2 else r.2.2) else r.2.2

/-- Processing of one drained edge event in rxBits (lines 389-441): decode the
    packed word at isrOutPos, advance isrOutPos, discard too-close events,
    otherwise update isrLastCycle and run the bit loop. -/
def processEvent (s : SwsState) : SwsState :=
  let isrCycle := s.isrBuffer s.isrOutPos
  let level : Bool := decide ((isrCycle &&& 1) = (if s.invert then 1 else 0))
  let s1 := { s with isrOutPos := (s.isrOutPos + 1) % s.isrBufSize }
  let cycles : Int := toInt32 (u32sub isrCycle s1.isrLastCycle) - ((s1.bitCycles / 2 : Nat) : Int)
  if cycles < 0 then s1
  else
    let s2 := { s1 with isrLastCycle := isrCycle }
    bitLoop (cycles.toNat + 2) level cycles s2

/-- The while (avail--) drain loop of rxBits. -/
def drainLoop : Nat → SwsState → SwsState
  | 0, s => s
  | n + 1, s => drainLoop n (processEvent s)

/-- The missing-stop-bit synthesis step of rxBits (lines 371-385): when the
    stop-bit window has expired, append an edge at the expected stop-bit
    boundary whose packed inverted-level bit encodes the stop (mark) level.
    Returns whether an event was appended. -/
def synthStopBit (now : Nat) (s : SwsState) : Bool × SwsState :=
  let delta := u32sub now s.isrLastCycle
  let expectedDelta := (10 - s.rxCurBit).toNat * s.bitCycles
  if expectedDelta ≤ delta then
    let next := (s.isrInPos + 1) % s.isrBufSize
    if next ≠ s.isrOutPos then
      let expectedCycle := (s.isrLastCycle % two32 + expectedDelta) % two32
      let word := (expectedCycle ||| 1) ^^^ (if s.invert then 0 else 1)
      (true, { s with isrBuffer := Function.update s.isrBuffer s.isrInPos word,
                      isrInPos := next })
    else
      (false, { s with isrOverflow := true })
  else (false, s)

/-- SoftwareSerial::rxBits (lines 359-443).  now is ESP.getCycleCount(). -/
def rxBits (now : Nat) (s : SwsState) : SwsState :=
  let a0 : Int := (s.isrInPos : Int) - (s.isrOutPos : Int)
  let avail : Int := if a0 < 0 then a0 + (s.isrBufSize : Int) else a0
  let s1 := if s.isrOverflow then { s with overflow := true, isrOverflow := false } else s
  if avail = 0 ∧ s1.rxCurBit < 8 ∧ s1.isrInPos = s1.isrOutPos ∧ 0 ≤ s1.rxCurBit then
    let p := synthStopBit now s1
    drainLoop (if p.1 then 1 else 0) p.2
  else
    drainLoop avail.toNat s1

/-- SoftwareSerial::rxRead (lines 445-458), the edge-capture ISR: curCycle is
    ESP.getCycleCount() and level the value read from the rx pin.  The cycle
    LSB is repurposed for the inverted level bit. -/
def rxRead (curCycle : Nat) (level : Bool) (s : SwsState) : SwsState :=
  let next := (s.isrInPos + 1) % s.isrBufSize
  if next ≠ s.isrOutPos then
    { s with isrBuffer := Function.update s.isrBuffer s.isrInPos
               (((curCycle % two32) ||| 1) ^^^ (if level then 1 else 0)),
             isrInPos := next }
  else
    { s with isrOverflow := true }

/-- SoftwareSerial::read (lines 223-232). -/
def readOp (now : Nat) (s : SwsState) : Int × SwsState :=
  if s.rxValid = false then (-1, s)
  else
    let s1 := if s.inPos = s.outPos then rxBits now s else s
    if s1.inPos = s1.outPos then (-1, s1)
    else ((s1.buffer s1.outPos : Int), { s1 with outPos := (s1.outPos + 1) % s1.bufSize })

/-- SoftwareSerial::peek (lines 354-357). -/
def peekOp (now : Nat) (s : SwsState) : Int × SwsState :=
  if s.rxValid = false then (-1, s)
  else
    let s1 := rxBits now s
    if s1.inPos = s1.outPos then (-1, s1) else ((s1.buffer s1.outPos : Int), s1)

/-- SoftwareSerial::available (lines 234-246).  now1/now2 are the cycle
    counter values at the two rxBits calls (the second after the
    optimistic_yield, an external scheduling collaborator). -/
def availableOp (now1 now2 : Nat) (s : SwsState) : Int × SwsState :=
  if s.rxValid = false then (0, s)
  else
    let s1 := rxBits now1 s
    let a0 : Int := (s1.inPos : Int) - (s1.outPos : Int)
    let avail : Int := if a0 < 0 then a0 + (s1.bufSize : Int) else a0
    if avail = 0 then
      let s2 := rxBits now2 s1
      let b0 : Int := (s2.inPos : Int) - (s2.outPos : Int)
      let avail2 : Int := if b0 < 0 then b0 + (s2.bufSize : Int) else b0
      (avail2, s2)
    else (avail, s1)

/-- SoftwareSerial::flush (lines 342-346). -/
def flushOp (s : SwsState) : SwsState :=
  { s with inPos := 0, outPos := 0, isrInPos := 0, isrOutPos := 0 }

/-- SoftwareSerial::enableRx (lines 211-221); attachInterrupt/detachInterrupt
    are modelled by the intAttached flag. -/
def enableRx (enable : Bool) (s : SwsState) : SwsState :=
  if s.rxValid then
    if enable then { s with rxCurBit := 8, intAttached := true, rxEnabled := true }
    else { s with intAttached := false, rxEnabled := false }
  else s

/-- SoftwareSerial::enableTx (lines 182-209); the pinMode/digitalWrite calls
    act on the external GPIO collaborator and do not touch instance state. -/
def enableTx (enable : Bool) (s : SwsState) : SwsState :=
  if s.oneWire ∧ s.txValid then
    if enable then enableRx false s else enableRx true s
  else s

/-- The ObjList scan of begin (lines 117-124): index of the first free slot. -/
def findFree : List Bool → Option Nat
  | [] => none
  | b :: rest => if b then (findFree rest).map (fun n => n + 1) else some 0

/-- SoftwareSerial::begin (lines 115-147).  freqMHz is ESP.getCpuFreqMHz();
    pinMode/digitalWrite on the tx pin touch only the GPIO collaborator. -/
def beginOp (freqMHz baud : Nat) (s : SwsState) : Bool × SwsState :=
  let s1 :=
    if s.swsInstsIdx < 0 then
      match findFree s.objList with
      | some i => { s with swsInstsIdx := (i : Int), objList := s.objList.set i true }
      | none => s
    else s
  if s1.swsInstsIdx < 0 then (false, s1)
  else
    let s2 := { s1 with bitCycles := freqMHz * 1000000 / baud, intTxEnabled := true }
    let s3 :=
      if s2.hasBuffer ∧ s2.hasIsrBuffer then
        { s2 with rxValid := true, inPos := 0, outPos := 0, isrInPos := 0, isrOutPos := 0 }
      else s2
    let s4 := if s3.rxEnabled = false then enableRx true s3 else s3
    (true, s4)

/-- m_bitCycles = ESP.getCpuFreqMHz() * 1000000 / baud (line 126). -/
def bitCyclesOf (freqMHz baud : Nat) : Nat := freqMHz * 1000000 / baud

/-- Accumulator of the transmit loop of write (lines 302-330): previous bit
    level pb, accumulated dutyCycle/offCycle, and the (level, duration) holds
    already emitted through writePeriod. -/
structure TxAcc where
  pb : Bool
  duty : Nat
  off : Nat
  spans : List (Bool × Nat)

/-- writePeriod(dutyCycle, offCycle) (lines 260-279): a high hold of dutyCycle
    cycles if nonzero, then a low hold of offCycle cycles if nonzero. -/
def emitPeriod (duty off : Nat) : List (Bool × Nat) :=
  (if duty ≠ 0 then [(true, duty)] else []) ++ (if off ≠ 0 then [(false, off)] else [])

/-- One iteration of the 9-bit inner loop of write (lines 314-325). -/
def txBitStep (bc : Nat) (a : TxAcc) (b : Bool) : TxAcc :=
  let a1 :=
    if a.pb = false ∧ b = true then
      { a with duty := 0, off := 0, spans := a.spans ++ emitPeriod a.duty a.off }
    else a
  let a2 := if b then { a1 with duty := a1.duty + bc } else { a1 with off := a1.off + bc }
  { a2 with pb := b }

/-- The bit values b of the 9 inner iterations for one byte: 8 data bits of
    o = (invert ? ~byte : byte) LSB first, then the stop bit !invert. -/
def byteBits (invert : Bool) (byte : Nat) : List Bool :=
  let o := if invert then (byte % 256) ^^^ 255 else byte % 256
  (List.range 9).map (fun i => if i < 8 then ((o >>> i) &&& 1) == 1 else !invert)

/-- The per-byte body of the outer loop of write (lines 308-325): accumulate
    the start bit (line 310), set pb = invert, then run the 9 bit steps. -/
def txByte (invert : Bool) (bc : Nat) (a : TxAcc) (byte : Nat) : TxAcc :=
  let a1 := if invert then { a with duty := a.duty + bc } else { a with off := a.off + bc }
  let a2 := { a1 with pb := invert }
  (byteBits invert byte).foldl (txBitStep bc) a2

/-- SoftwareSerial::write(buffer, size) (lines 285-340), modelled by its
    return value and the (level, duration) holds emitted.  The final
    writePeriod at cnt == size-1 (lines 326-329) is the flush after the last
    byte; a leading rxBits call and the txEnable pin handling act on state
    modelled elsewhere / on the GPIO collaborator.  pb is declared
    uninitialized in the source and set to m_invert before first use. -/
def writeOp (s : SwsState) (bytes : List Nat) : Nat × List (Bool × Nat) :=
  if s.txValid = false then (0, [])
  else
    let a := bytes.foldl (txByte s.invert s.bitCycles)
      { pb := s.invert, duty := 0, off := 0, spans := [] }
    let spans := if bytes = [] then a.spans else a.spans ++ emitPeriod a.duty a.off
    (bytes.length, spans)

/-- Total duration in cycles of a list of emitted holds. -/
def spanSum (spans : List (Bool × Nat)) : Nat := (spans.map (fun p => p.2)).sum

/-- The electrical edges of a hold sequence: each hold begins with a
    transition to its level at its start instant. -/
def spansToEdges : Nat → List (Bool × Nat) → List (Nat × Bool)
  | _, [] => []
  | t, (l, d) :: rest => (t, l) :: spansToEdges (t + d) rest

/-- The packed word rxRead stores for an edge (cycle, level). -/
def packEdge (e : Nat × Bool) : Nat :=
  ((e.1 % two32) ||| 1) ^^^ (if e.2 then 1 else 0)

/-- An isr buffer holding the given packed words from index 0. -/
def bufFromList (l : List Nat) : Nat → Nat := fun i => l.getD i 0

/-- The index pair of one ring buffer (edge-capture or byte buffer). -/
structure Ring where
  cap : Nat
  inPos : Nat
  outPos : Nat

/-- A producer step: the full test next-write-index-equals-read-index and the
    write-index advance shared by rxRead (lines 451-454) and the byte store in
    rxBits (lines 423-428).  Returns whether the item was accepted. -/
def ringProduce (r : Ring) : Ring × Bool :=
  let next := (r.inPos + 1) % r.cap
  if next ≠ r.outPos then ({ r with inPos := next }, true) else (r, false)

/-- A consumer step: the emptiness test and read-index advance of read
    (lines 225-230).  Returns whether an item was consumed. -/
def ringConsume (r : Ring) : Ring × Bool :=
  if r.inPos ≠ r.outPos then ({ r with outPos := (r.outPos + 1) % r.cap }, true)
  else (r, false)

/-- available()-style count: int difference of the indices, corrected by the
    capacity when negative (lines 237-238 and 360-361). -/
def ringAvail (r : Ring) : Int :=
  let a : Int := (r.inPos : Int) - (r.outPos : Int)
  if a < 0 then a + (r.cap : Int) else a

/-- One produce (op = true) or consume (op = false) operation, tracking the
    counts of items actually accepted and actually consumed. -/
def ringStep (x : Ring × Nat × Nat) (op : Bool) : Ring × Nat × Nat :=
  if op then
    let r := ringProduce x.1
    (r.1, x.2.1 + (if r.2 then 1 else 0), x.2.2)
  else
    let r := ringConsume x.1
    (r.1, x.2.1, x.2.2 + (if r.2 then 1 else 0))

/-- Run a sequence of produce/consume operations from an empty ring. -/
def ringRun (cap : Nat) (ops : List Bool) : Ring × Nat × Nat :=
  ops.foldl ringStep (⟨cap, 0, 0⟩, 0, 0)

/-- The guard of the missing-stop-bit synthesis in rxBits (lines 370-373),
    evaluated on the pre-call state. -/
def synthCond (now : Nat) (s : SwsState) : Bool :=
  let a0 : Int := (s.isrInPos : Int) - (s.isrOutPos : Int)
  let avail : Int := if a0 < 0 then a0 + (s.isrBufSize : Int) else a0
  decide (avail = 0 ∧ s.rxCurBit < 8 ∧ s.isrInPos = s.isrOutPos ∧ 0 ≤ s.rxCurBit ∧
    (10 - s.rxCurBit).toNat * s.bitCycles ≤ u32sub now s.isrLastCycle)

/-- A quiescent, unconfigured instance used as the base of the concrete
    scenarios: buffers allocated, nothing received, reception idle. -/
def baseState : SwsState :=
  { invert := false, bitCycles := 0, bufSize := 64, buffer := fun _ => 0,
    inPos := 0, outPos := 0, isrBufSize := 16, isrBuffer := fun _ => 0,
    isrInPos := 0, isrOutPos := 0, rxCurBit := 8, rxCurByte := 0,
    isrLastCycle := 0, isrOverflow := false, overflow := false,
    rxValid := false, txValid := false, rxEnabled := false, oneWire := false,
    intTxEnabled := false, intAttached := false, hasBuffer := true,
    hasIsrBuffer := true, swsInstsIdx := -1,
    objList := [false, false, false, false, false, false, false, false, false, false] }

/-- The transmit-side instance of the 9600 baud / 80 MHz scenario. -/
def txState : SwsState :=
  { baseState with txValid := true, bitCycles := bitCyclesOf 80 9600 }

/-- The receive-side instance of the scenario: the edge-capture buffer already
    holds exactly the packed edges of the transmitted signal of byte 0x41,
    starting at cycle 10000, as rxRead would have recorded them. -/
def c1RxState : SwsState :=
  { baseState with
    rxValid := true, bitCycles := bitCyclesOf 80 9600,
    isrBuffer := bufFromList ((spansToEdges 10000 (writeOp txState [65]).2).map packEdge),
    isrInPos := 6, isrOutPos := 0 }

/-- Mid-byte reception: the edge closing data bit 1 (value 0, so accumulator
    0x40) was recorded at cycle 10000, and the next recorded edge sits 3 bit
    periods later with a low new level (packed word odd). -/
def c2State : SwsState :=
  { baseState with
    rxValid := true, bitCycles := 8333, isrLastCycle := 10000,
    rxCurBit := 1, rxCurByte := 64, isrBuffer := fun _ => 34999,
    isrInPos := 1, isrOutPos := 0 }

/-- Clamping scenario: right after data bit 0 (accumulator 0x80) the next
    recorded edge sits 20 bit periods later (166660 cycles) at mark level. -/
def c2ClampState : SwsState :=
  { baseState with
    rxValid := true, bitCycles := 8333, isrLastCycle := 10000,
    rxCurBit := 0, rxCurByte := 128, isrBuffer := fun _ => 176660,
    isrInPos := 1, isrOutPos := 0 }

/-- A byte stuck after a detected start bit and zero completed data bits
    (rxCurBit = -1): the edge buffer is empty and the stop-bit window has
    long expired by cycle 1000000. -/
def c3CeState : SwsState :=
  { baseState with rxValid := true, bitCycles := 8333, rxCurBit := -1 }

/-- A byte stuck after data bit 2 (accumulator 0xa0), edge buffer empty,
    last edge at cycle 5000. -/
def c3State : SwsState :=
  { baseState with
    rxValid := true, bitCycles := 8333, isrLastCycle := 5000,
    rxCurBit := 2, rxCurByte := 160 }

/-- A byte stuck after data bit 3: rxBits called from the foreground with the
    stop-bit window expired appends a synthesized edge, advancing the
    edge-buffer write index isrInPos. -/
def c5CeState : SwsState :=
  { baseState with rxValid := true, bitCycles := 8333, rxCurBit := 3 }

/-- Construction with a failed buffer allocation (malloc returned null). -/
def c6NoBufState : SwsState :=
  { baseState with hasBuffer := false }

/-- All ten registration slots already taken by other instances. -/
def c6FullState : SwsState :=
  { baseState with objList := List.replicate 10 true }

/-- A reception in progress (cursor mid-byte, ring indices nonzero). -/
def c8CeState : SwsState :=
  { baseState with
    rxCurBit := 3, rxCurByte := 85, isrLastCycle := 999,
    inPos := 5, isrInPos := 7 }

/-- A produce/consume schedule exercising wrap-around at capacity 4. -/
def c4Ops : List Bool :=
  [true, true, false, true, true, true, true, false, false, true, true, false]


/-! ### Arithmetic and bitwise helper lemmas -/

theorem or_one_eq (E : Nat) : E ||| 1 = 2 * (E / 2) + 1 := by
  obtain ⟨q, r, hr, hE⟩ : ∃ q r, r < 2 ∧ E = 2 * q + r :=
    ⟨E / 2, E % 2, Nat.mod_lt _ (by omega), by omega⟩
  subst hE
  have hq : (2 * q + r) / 2 = q := by omega
  rw [hq]
  interval_cases r
  · simpa using Nat.lor_bit false q true 0
  · simpa using Nat.lor_bit true q true 0

theorem or_one_xor_one_eq (E : Nat) : (E ||| 1) ^^^ 1 = 2 * (E / 2) := by
  rw [or_one_eq]
  simpa using Nat.xor_bit true (E / 2) true 0

theorem and_one_eq_mod (x : Nat) : x &&& 1 = x % 2 := Nat.and_one_is_mod x

theorem u32sub_eq_sub (a b : Nat) (ha : a < two32) (hba : b ≤ a) : u32sub a b = a - b := by
  simp only [u32sub, two32] at ha ⊢
  omega

theorem toInt32_eq_self (v : Nat) (h : v < two31) : toInt32 v = (v : Int) := by
  have h32 : v % two32 = v := by
    simp only [two31] at h
    simp only [two32]
    omega
  simp only [toInt32, h32]
  rw [if_pos h]

theorem bitLoop_of_pos (f : Nat) (hf : 0 < f) (level : Bool) (cycles : Int) (s : SwsState) :
    bitLoop f level cycles s =
      (if (bitStep level cycles s).1 then
        (if 0 ≤ (bitStep level cycles s).2.1 then
          bitLoop (f - 1) level (bitStep level cycles s).2.1 (bitStep level cycles s).2.2
         else (bitStep level cycles s).2.2)
       else (bitStep level cycles s).2.2) := by
  cases f with
  | zero => omega
  | succ n => rfl

theorem drainLoop_one (s : SwsState) : drainLoop 1 s = processEvent s := rfl

/-! ### Frame lemmas: the foreground drain never writes the edge-buffer write index -/

theorem bitStep_isrInPos (level : Bool) (cycles : Int) (s : SwsState) :
    ((bitStep level cycles s).2.2).isrInPos = s.isrInPos := by
  simp only [bitStep]
  split_ifs <;> rfl

theorem bitLoop_isrInPos (f : Nat) : ∀ (level : Bool) (cycles : Int) (s : SwsState),
    (bitLoop f level cycles s).isrInPos = s.isrInPos := by
  induction f with
  | zero => intro level cycles s; rfl
  | succ n ih =>
    intro level cycles s
    simp only [bitLoop]
    split_ifs
    · rw [ih, bitStep_isrInPos]
    · rw [bitStep_isrInPos]
    · rw [bitStep_isrInPos]

theorem processEvent_isrInPos (s : SwsState) : (processEvent s).isrInPos = s.isrInPos := by
  simp only [processEvent]
  split_ifs <;> simp [bitLoop_isrInPos]

theorem drainLoop_isrInPos (n : Nat) : ∀ s : SwsState, (drainLoop n s).isrInPos = s.isrInPos := by
  induction n with
  | zero => intro s; rfl
  | succ m ih =>
    intro s
    simp only [drainLoop]
    rw [ih, processEvent_isrInPos]

/-! ### Claim theorems -/

/-- Claim C8, counterexample: flush does not reset the reconstruction cursor:
    on a state mid-byte (bit index 3, accumulator 0x55, last edge 999) the
    cursor fields survive flush unchanged, contradicting the claim that
    currentBitIndex, currentByteAccumulator and lastEdgeTimestamp are reset. -/
theorem c8_flush_keeps_cursor_counterexample :
    (flushOp c8CeState).rxCurBit = 3 ∧ (flushOp c8CeState).rxCurByte = 85 ∧
    (flushOp c8CeState).isrLastCycle = 999 ∧ ¬(flushOp c8CeState).rxCurBit = 8 := by
  decide

/-- Claim C8 (amended): flush empties the byte buffer and the edge-capture
    buffer (all four ring indices reset to 0) but leaves the reconstruction
    cursor (rxCurBit, rxCurByte, isrLastCycle) and the buffer contents
    untouched. -/
theorem c8_flush_amended (s : SwsState) :
    (flushOp s).inPos = 0 ∧ (flushOp s).outPos = 0 ∧ (flushOp s).isrInPos = 0 ∧
    (flushOp s).isrOutPos = 0 ∧ (flushOp s).rxCurBit = s.rxCurBit ∧
    (flushOp s).rxCurByte = s.rxCurByte ∧ (flushOp s).isrLastCycle = s.isrLastCycle ∧
    (flushOp s).buffer = s.buffer ∧ (flushOp s).isrBuffer = s.isrBuffer := by
  simp [flushOp]

/-- Claim C9: enableRx and enableTx (the one-wire direction switch) only
    attach/detach the edge interrupt and reconfigure pins: the buffers (their
    allocation and contents), their sizes, and all four ring indices are
    unchanged; no reallocation happens. -/
theorem c9_enable_rx_tx_frame (s : SwsState) (enable : Bool) :
    (enableRx enable s).buffer = s.buffer ∧ (enableRx enable s).isrBuffer = s.isrBuffer ∧
    (enableRx enable s).hasBuffer = s.hasBuffer ∧ (enableRx enable s).hasIsrBuffer = s.hasIsrBuffer ∧
    (enableRx enable s).bufSize = s.bufSize ∧ (enableRx enable s).isrBufSize = s.isrBufSize ∧
    (enableRx enable s).inPos = s.inPos ∧ (enableRx enable s).outPos = s.outPos ∧
    (enableRx enable s).isrInPos = s.isrInPos ∧ (enableRx enable s).isrOutPos = s.isrOutPos ∧
    (enableTx enable s).buffer = s.buffer ∧ (enableTx enable s).isrBuffer = s.isrBuffer ∧
    (enableTx enable s).hasBuffer = s.hasBuffer ∧ (enableTx enable s).hasIsrBuffer = s.hasIsrBuffer ∧
    (enableTx enable s).bufSize = s.bufSize ∧ (enableTx enable s).isrBufSize = s.isrBufSize ∧
    (enableTx enable s).inPos = s.inPos ∧ (enableTx enable s).outPos = s.outPos ∧
    (enableTx enable s).isrInPos = s.isrInPos ∧ (enableTx enable s).isrOutPos = s.isrOutPos := by
  unfold enableTx enableRx
  split_ifs <;> simp

/-- Claim C10: with reception never successfully initialized (rxValid false),
    read and peek return the distinguished no-data result -1, available
    returns 0, and none of the three calls changes the state. -/
theorem c10_invalid_rx_reads (now1 now2 now3 : Nat) (s : SwsState)
    (h : s.rxValid = false) :
    readOp now1 s = (-1, s) ∧ peekOp now2 s = (-1, s) ∧
    availableOp now2 now3 s = (0, s) := by
  simp [readOp, peekOp, availableOp, h]

/-- Witness for C10 at the concrete unconfigured instance. -/
theorem c10_invalid_rx_reads_witness :
    readOp 0 baseState = (-1, baseState) ∧ peekOp 0 baseState = (-1, baseState) ∧
    availableOp 0 0 baseState = (0, baseState) :=
  c10_invalid_rx_reads 0 0 0 baseState (by decide)


/-- When the stop-bit window has not yet expired, the synthesis step does
    nothing. -/
theorem synthStopBit_no_append (now : Nat) (s : SwsState)
    (h : u32sub now s.isrLastCycle < (10 - s.rxCurBit).toNat * s.bitCycles) :
    synthStopBit now s = (false, s) := by
  simp only [synthStopBit]
  rw [if_neg (by omega)]

/-- Unless the missing-stop-bit synthesis guard fires, the foreground
    reconstructor rxBits leaves the edge-buffer write index untouched. -/
theorem rxBits_isrInPos_no_synth (now : Nat) (s : SwsState)
    (h : synthCond now s = false) :
    (rxBits now s).isrInPos = s.isrInPos := by
  simp only [synthCond, decide_eq_false_iff_not] at h
  push_neg at h
  simp only [rxBits]
  set a0 : Int := (s.isrInPos : Int) - (s.isrOutPos : Int) with ha0
  set avail : Int := if a0 < 0 then a0 + (s.isrBufSize : Int) else a0 with havail
  set s1 : SwsState := if s.isrOverflow then { s with overflow := true, isrOverflow := false } else s with hs1
  have hf1 : s1.isrInPos = s.isrInPos := by rw [hs1]; split_ifs <;> rfl
  have hf2 : s1.isrOutPos = s.isrOutPos := by rw [hs1]; split_ifs <;> rfl
  have hf3 : s1.rxCurBit = s.rxCurBit := by rw [hs1]; split_ifs <;> rfl
  have hf4 : s1.isrLastCycle = s.isrLastCycle := by rw [hs1]; split_ifs <;> rfl
  have hf5 : s1.bitCycles = s.bitCycles := by rw [hs1]; split_ifs <;> rfl
  by_cases hc : avail = 0 ∧ s1.rxCurBit < 8 ∧ s1.isrInPos = s1.isrOutPos ∧ 0 ≤ s1.rxCurBit
  · rw [if_pos hc]
    obtain ⟨hav, hbit, heq, hnn⟩ := hc
    have hd : u32sub now s1.isrLastCycle < (10 - s1.rxCurBit).toNat * s1.bitCycles := by
      rw [hf3, hf4, hf5]
      exact h hav (by rw [← hf3]; exact hbit) (by rw [← hf1, ← hf2]; exact heq)
        (by rw [← hf3]; exact hnn)
    rw [synthStopBit_no_append now s1 hd]
    simp [drainLoop, hf1]
  · rw [if_neg hc]
    rw [drainLoop_isrInPos]
    exact hf1


/-- Claim C5, counterexample: the foreground receive reconstructor itself
    advances the edge-buffer write index: on a mid-byte state (bit index 3)
    with an empty edge buffer and an expired stop-bit window, rxBits (a
    foreground consumer operation) appends a synthesized edge, moving
    isrInPos from 0 to 1 — so it is not only the interrupt-context producer
    that ever advances the write index. -/
theorem c5_foreground_advances_write_index_counterexample :
    (rxBits 83330 c5CeState).isrInPos = 1 ∧ c5CeState.isrInPos = 0 := by
  decide

/-- Claim C5 (amended): for the edge-capture ring buffer, the ISR producer
    rxRead never writes the read index (nor the byte-buffer indices); the
    foreground rxBits advances the write index only when its missing-stop-bit
    synthesis guard (synthCond) fires, and flush resets both indices to zero
    from the foreground. -/
theorem c5_index_ownership_amended (t now : Nat) (lv : Bool) (sa sb sc : SwsState)
    (h : synthCond now sb = false) :
    (rxRead t lv sa).isrOutPos = sa.isrOutPos ∧
    (rxRead t lv sa).inPos = sa.inPos ∧
    (rxRead t lv sa).outPos = sa.outPos ∧
    (rxBits now sb).isrInPos = sb.isrInPos ∧
    (flushOp sc).isrInPos = 0 ∧ (flushOp sc).isrOutPos = 0 := by
  refine ⟨?_, ?_, ?_, rxBits_isrInPos_no_synth now sb h, rfl, rfl⟩
  · simp only [rxRead]
    split_ifs <;> rfl
  · simp only [rxRead]
    split_ifs <;> rfl
  · simp only [rxRead]
    split_ifs <;> rfl

/-- Witness for C5 (amended) on the quiescent base instance, where the
    synthesis guard does not fire (the cursor is idle at 8). -/
theorem c5_index_ownership_amended_witness :
    (rxRead 100 true baseState).isrOutPos = baseState.isrOutPos ∧
    (rxRead 100 true baseState).inPos = baseState.inPos ∧
    (rxRead 100 true baseState).outPos = baseState.outPos ∧
    (rxBits 100 baseState).isrInPos = baseState.isrInPos ∧
    (flushOp baseState).isrInPos = 0 ∧ (flushOp baseState).isrOutPos = 0 :=
  c5_index_ownership_amended 100 100 true baseState baseState baseState (by decide)


/-! ### Transmit-engine accounting lemmas -/

theorem spanSum_append (xs ys : List (Bool × Nat)) :
    spanSum (xs ++ ys) = spanSum xs + spanSum ys := by
  simp [spanSum]

theorem spanSum_emitPeriod (d o : Nat) : spanSum (emitPeriod d o) = d + o := by
  unfold emitPeriod
  split_ifs <;> simp [spanSum] <;> omega

theorem txBitStep_total (bc : Nat) (a : TxAcc) (b : Bool) :
    spanSum (txBitStep bc a b).spans + (txBitStep bc a b).duty + (txBitStep bc a b).off
      = spanSum a.spans + a.duty + a.off + bc := by
  unfold txBitStep
  split_ifs <;> simp [spanSum_append, spanSum_emitPeriod] <;> omega

theorem txBitStep_foldl_total (bc : Nat) (bits : List Bool) : ∀ a : TxAcc,
    spanSum (bits.foldl (txBitStep bc) a).spans + (bits.foldl (txBitStep bc) a).duty
        + (bits.foldl (txBitStep bc) a).off
      = spanSum a.spans + a.duty + a.off + bits.length * bc := by
  induction bits with
  | nil => intro a; simp
  | cons b rest ih =>
    intro a
    simp only [List.foldl_cons, List.length_cons]
    rw [ih, txBitStep_total]
    ring

theorem byteBits_length (invert : Bool) (byte : Nat) : (byteBits invert byte).length = 9 := by
  simp [byteBits]

theorem txByte_total (invert : Bool) (bc : Nat) (a : TxAcc) (byte : Nat) :
    spanSum (txByte invert bc a byte).spans + (txByte invert bc a byte).duty
        + (txByte invert bc a byte).off
      = spanSum a.spans + a.duty + a.off + 10 * bc := by
  unfold txByte
  rw [txBitStep_foldl_total, byteBits_length]
  split_ifs <;> simp <;> ring

theorem txByte_foldl_total (invert : Bool) (bc : Nat) (bytes : List Nat) : ∀ a : TxAcc,
    spanSum (bytes.foldl (txByte invert bc) a).spans + (bytes.foldl (txByte invert bc) a).duty
        + (bytes.foldl (txByte invert bc) a).off
      = spanSum a.spans + a.duty + a.off + bytes.length * (10 * bc) := by
  induction bytes with
  | nil => intro a; simp
  | cons byte rest ih =>
    intro a
    simp only [List.foldl_cons, List.length_cons]
    rw [ih, txByte_total]
    ring

/-- Claim C7, counterexample: on an instance whose transmit side was never
    configured (txValid false), write requests one byte but returns 0, not
    the requested count 1. -/
theorem c7_write_returns_zero_counterexample :
    (writeOp baseState [65]).1 = 0 ∧ ¬(writeOp baseState [65]).1 = [65].length := by
  decide

/-- Claim C7 (amended): whenever transmit is configured (txValid), write
    returns the full requested count for every byte sequence, and the emitted
    level holds together span exactly 10 bit periods per byte — the engine
    never transmits or reports a strict prefix.  (With txValid false it
    transmits nothing and returns 0.) -/
theorem c7_write_full_count_amended (s : SwsState) (bytes : List Nat)
    (h : s.txValid = true) :
    (writeOp s bytes).1 = bytes.length ∧
    spanSum (writeOp s bytes).2 = bytes.length * (10 * s.bitCycles) := by
  have hne : ¬s.txValid = false := by simp [h]
  simp only [writeOp]
  rw [if_neg hne]
  refine ⟨rfl, ?_⟩
  cases hb : bytes with
  | nil => simp [spanSum]
  | cons byte rest =>
    have htot := txByte_foldl_total s.invert s.bitCycles (byte :: rest)
      { pb := s.invert, duty := 0, off := 0, spans := [] }
    simp only [spanSum, List.map_nil, List.sum_nil, Nat.zero_add] at htot
    rw [if_neg (by simp)]
    rw [spanSum_append, spanSum_emitPeriod]
    set L := (byte :: rest).length * (10 * s.bitCycles) with hL
    simp only [spanSum] at htot ⊢
    omega

/-- Witness for C7 (amended) transmitting two bytes on the configured
    transmit instance. -/
theorem c7_write_full_count_amended_witness :
    (writeOp txState [65, 66]).1 = [65, 66].length ∧
    spanSum (writeOp txState [65, 66]).2 = [65, 66].length * (10 * txState.bitCycles) :=
  c7_write_full_count_amended txState [65, 66] (by decide)

/-! ### Ring-buffer invariant -/

theorem ringStep_inv (x : Ring × Nat × Nat) (op : Bool)
    (hcap : 1 ≤ x.1.cap) (h2 : x.1.inPos < x.1.cap) (h3 : x.1.outPos < x.1.cap)
    (h4 : ringAvail x.1 = (x.2.1 : Int) - (x.2.2 : Int)) :
    (ringStep x op).1.cap = x.1.cap ∧ (ringStep x op).1.inPos < x.1.cap ∧
    (ringStep x op).1.outPos < x.1.cap ∧
    ringAvail (ringStep x op).1 = ((ringStep x op).2.1 : Int) - ((ringStep x op).2.2 : Int) := by
  obtain ⟨⟨rc, ri, ro⟩, p, c⟩ := x
  simp only [ringAvail] at h4 ⊢
  simp only at hcap h2 h3
  unfold ringStep ringProduce ringConsume
  cases op
  · -- consume
    simp only [Bool.false_eq_true, if_false]
    rcases Nat.lt_or_ge (ro + 1) rc with hlt | hge
    · rw [Nat.mod_eq_of_lt hlt]
      split_ifs at h4 ⊢ <;> simp_all <;> omega
    · have hro : ro + 1 = rc := by omega
      rw [hro, Nat.mod_self]
      split_ifs at h4 ⊢ <;> simp_all <;> omega
  · -- produce
    simp only [if_true]
    rcases Nat.lt_or_ge (ri + 1) rc with hlt | hge
    · rw [Nat.mod_eq_of_lt hlt]
      split_ifs at h4 ⊢ <;> simp_all <;> omega
    · have hri : ri + 1 = rc := by omega
      rw [hri, Nat.mod_self]
      split_ifs at h4 ⊢ <;> simp_all <;> omega

theorem ringRun_inv (cap : Nat) (hcap : 1 ≤ cap) (ops : List Bool) :
    (ringRun cap ops).1.cap = cap ∧ (ringRun cap ops).1.inPos < cap ∧
    (ringRun cap ops).1.outPos < cap ∧
    ringAvail (ringRun cap ops).1
      = ((ringRun cap ops).2.1 : Int) - ((ringRun cap ops).2.2 : Int) := by
  unfold ringRun
  suffices h : ∀ x : Ring × Nat × Nat, x.1.cap = cap → x.1.inPos < cap → x.1.outPos < cap →
      ringAvail x.1 = (x.2.1 : Int) - (x.2.2 : Int) →
      (ops.foldl ringStep x).1.cap = cap ∧ (ops.foldl ringStep x).1.inPos < cap ∧
      (ops.foldl ringStep x).1.outPos < cap ∧
      ringAvail (ops.foldl ringStep x).1
        = ((ops.foldl ringStep x).2.1 : Int) - ((ops.foldl ringStep x).2.2 : Int) by
    exact h (⟨cap, 0, 0⟩, 0, 0) rfl hcap hcap (by simp [ringAvail])
  induction ops with
  | nil => intro x h1 h2 h3 h4; exact ⟨h1, h2, h3, h4⟩
  | cons op rest ih =>
    intro x h1 h2 h3 h4
    simp only [List.foldl_cons]
    obtain ⟨g1, g2, g3, g4⟩ := ringStep_inv x op (by rw [h1]; exact hcap)
      (by rw [h1]; exact h2) (by rw [h1]; exact h3) h4
    have hc1 : (ringStep x op).1.cap = cap := by rw [g1, h1]
    have hc2 : (ringStep x op).1.inPos < cap := by rw [← h1]; exact g2
    have hc3 : (ringStep x op).1.outPos < cap := by rw [← h1]; exact g3
    exact ih (ringStep x op) hc1 hc2 hc3 g4

/-- Claim C4: for every sequence of produce/consume operations on a ring
    buffer with the next-index-equals-read-index fullness check (capacity at
    least 1), the available count never exceeds capacity - 1 and always
    equals (hence never exceeds) the number of items actually produced minus
    the number actually consumed. -/
theorem c4_ring_buffer_invariant (cap : Nat) (hcap : 1 ≤ cap) (ops : List Bool) :
    ringAvail (ringRun cap ops).1 ≤ (cap : Int) - 1 ∧
    ringAvail (ringRun cap ops).1
      = ((ringRun cap ops).2.1 : Int) - ((ringRun cap ops).2.2 : Int) := by
  obtain ⟨h1, h2, h3, h4⟩ := ringRun_inv cap hcap ops
  refine ⟨?_, h4⟩
  simp only [ringAvail]
  split_ifs <;> omega

/-- Witness for C4 with capacity 4 and a wrap-around schedule. -/
theorem c4_ring_buffer_invariant_witness :
    ringAvail (ringRun 4 c4Ops).1 ≤ (4 : Int) - 1 ∧
    ringAvail (ringRun 4 c4Ops).1
      = ((ringRun 4 c4Ops).2.1 : Int) - ((ringRun 4 c4Ops).2.2 : Int) :=
  c4_ring_buffer_invariant 4 (by decide) c4Ops


/-! ### Registration-table lemmas -/

theorem findFree_of_all_true (l : List Bool) (h : l.all (fun x => x) = true) :
    findFree l = none := by
  induction l with
  | nil => rfl
  | cons b rest ih =>
    simp only [List.all_cons, Bool.and_eq_true] at h
    simp [findFree, h.1, ih h.2]

theorem findFree_isSome_of_not_all (l : List Bool) (h : l.all (fun x => x) = false) :
    (findFree l).isSome = true := by
  induction l with
  | nil => simp at h
  | cons b rest ih =>
    cases hb : b
    · simp [findFree, hb]
    · have hr : rest.all (fun x => x) = false := by
        rw [hb] at h
        simpa using h
      have hsome := ih hr
      cases hff : findFree rest with
      | none => rw [hff] at hsome; simp at hsome
      | some j => simp [findFree, hb, hff]

/-- Claim C6, counterexample: begin succeeds even though the receive buffers
    failed to allocate.  On an instance whose byte buffer malloc failed
    (hasBuffer false) but with a registration slot free, begin returns true
    (with reception left unusable), not the failure the claim requires. -/
theorem c6_begin_succeeds_without_buffers_counterexample :
    (beginOp 80 9600 c6NoBufState).1 = true ∧
    (beginOp 80 9600 c6NoBufState).2.rxValid = false := by
  decide

/-- Claim C6 (amended): begin returns failure only when no registration slot
    is free (and then leaves the instance completely unchanged, hence inert
    and retryable); a buffer allocation failure does not make begin fail —
    begin still returns true, but reception stays invalid (rxValid false)
    and no receive interrupt is armed (intAttached unchanged). -/
theorem c6_begin_failure_amended (f bd : Nat) (s sB : SwsState)
    (h1 : s.swsInstsIdx < 0) (h2 : s.objList.all (fun x => x) = true)
    (h3 : sB.hasBuffer = false ∨ sB.hasIsrBuffer = false)
    (h4 : sB.rxValid = false)
    (h5 : 0 ≤ sB.swsInstsIdx ∨ sB.objList.all (fun x => x) = false) :
    beginOp f bd s = (false, s) ∧
    (beginOp f bd sB).1 = true ∧
    (beginOp f bd sB).2.rxValid = false ∧
    (beginOp f bd sB).2.intAttached = sB.intAttached := by
  have hbufs : ¬(sB.hasBuffer = true ∧ sB.hasIsrBuffer = true) := by
    rcases h3 with h3 | h3 <;> simp [h3]
  constructor
  · simp [beginOp, if_pos h1, findFree_of_all_true s.objList h2]
  · by_cases hidx : sB.swsInstsIdx < 0
    · have hall : sB.objList.all (fun x => x) = false := by
        rcases h5 with h5 | h5
        · omega
        · exact h5
      have hsome := findFree_isSome_of_not_all sB.objList hall
      cases hfind : findFree sB.objList with
      | none => rw [hfind] at hsome; simp at hsome
      | some i =>
        simp only [beginOp, if_pos hidx, hfind]
        rw [if_neg (by simp)]
        split_ifs <;> simp_all [enableRx]
    · simp only [beginOp, if_neg hidx]
      split_ifs <;> simp_all [enableRx]

/-- Witness for C6 (amended): a full registration table makes begin fail and
    leaves the state untouched; a free table with failed buffer allocation
    makes begin succeed with reception left dead. -/
theorem c6_begin_failure_amended_witness :
    beginOp 80 9600 c6FullState = (false, c6FullState) ∧
    (beginOp 80 9600 c6NoBufState).1 = true ∧
    (beginOp 80 9600 c6NoBufState).2.rxValid = false ∧
    (beginOp 80 9600 c6NoBufState).2.intAttached = c6NoBufState.intAttached :=
  c6_begin_failure_amended 80 9600 c6FullState c6NoBufState (by decide) (by decide)
    (by decide) (by decide) (by decide)

/-- Claim C1: in the 9600 baud / 80 MHz scenario the bit period is exactly
    8333 cycles; transmitting byte 0x41 (= 65) uninverted emits the level
    holds: start bit low one period, data bit 0 high one period, data bits
    1-5 low five periods, data bit 6 high one period, data bit 7 low one
    period, stop bit high one period (the LSB-first bit sequence of 0x41
    being 1,0,0,0,0,0,1,0 followed by the mark stop bit); and feeding the
    receive reconstructor exactly the edges of that signal (recorded from
    cycle 10000 in the edge-capture buffer of c1RxState) decodes byte 0x41
    back into the byte buffer. -/
theorem c1_roundtrip_9600_0x41 :
    bitCyclesOf 80 9600 = 8333 ∧
    txState.bitCycles = bitCyclesOf 80 9600 ∧
    (writeOp txState [65]).1 = 1 ∧
    (writeOp txState [65]).2 =
      [(false, 8333), (true, 8333), (false, 41665),
       (true, 8333), (false, 8333), (true, 8333)] ∧
    byteBits false 65 =
      [true, false, false, false, false, false, true, false, true] ∧
    (rxBits 84997 c1RxState).inPos = 1 ∧
    (rxBits 84997 c1RxState).buffer 0 = 65 ∧
    (rxBits 84997 c1RxState).rxCurBit = 8 := by
  decide


/-! ### Decode-path scenario lemmas for the inner bit loop -/

theorem bitStep_store (s : SwsState) (level : Bool) (cycles : Int)
    (hb : s.rxCurBit = 7) (hroom : (s.inPos + 1) % s.bufSize ≠ s.outPos) :
    bitStep level cycles s =
      (true, cycles - (s.bitCycles : Int),
       { s with rxCurBit := 8,
                buffer := Function.update s.buffer s.inPos s.rxCurByte,
                rxCurByte := 0, inPos := (s.inPos + 1) % s.bufSize }) := by
  simp only [bitStep, hb]
  simp [hroom]

theorem bitStep_idle_mark (s : SwsState) (cycles : Int) (hb : s.rxCurBit = 8) :
    bitStep true cycles s = (false, cycles, s) := by
  simp [bitStep, hb]

theorem bitStep_hidden_overshoot (s : SwsState) (b : Nat) (level : Bool) (c : Nat)
    (hb : s.rxCurBit = (b : Int)) (hb6 : b ≤ 6) (hbc : 1 ≤ s.bitCycles)
    (hc : (8 - b) * s.bitCycles ≤ c) :
    bitStep level (c : Int) s =
      (true, (c : Int) - (((7 - b) * s.bitCycles : Nat) : Int),
       { s with
         rxCurByte :=
           if s.rxCurByte &&& 128 ≠ 0 then
             (s.rxCurByte >>> (7 - b)) ||| ((255 <<< (8 - (7 - b))) &&& 255)
           else s.rxCurByte >>> (7 - b),
         rxCurBit := 7 }) := by
  have hbcle : s.bitCycles ≤ c := by
    calc s.bitCycles = 1 * s.bitCycles := (Nat.one_mul _).symm
    _ ≤ (8 - b) * s.bitCycles := Nat.mul_le_mul_right _ (by omega)
    _ ≤ c := hc
  have hdiv : 8 - b ≤ c / s.bitCycles := (Nat.le_div_iff_mul_le (by omega)).2 hc
  have h7b : ((7 : Int) - (b : Int)).toNat = 7 - b := by omega
  simp only [bitStep, hb, Int.toNat_natCast]
  rw [if_pos (by omega : (-1 : Int) ≤ (b : Int) ∧ ((b : Int) : Int) < 7)]
  rw [if_pos (by exact_mod_cast hbcle : ((s.bitCycles : Nat) : Int) ≤ (c : Int))]
  rw [if_pos (by omega : (7 : Int) - (b : Int) < ((c / s.bitCycles : Nat) : Int))]
  rw [h7b]
  rw [if_neg (by omega : ¬((b : Int) + ((7 - b : Nat) : Int) < 7))]
  simp only [Prod.mk.injEq, SwsState.mk.injEq]
  refine ⟨trivial, by push_cast; ring, ?_⟩
  simp only [and_true, true_and, eq_self_iff_true]
  omega


theorem bitStep_hidden_mid (s : SwsState) (bq : Int) (level : Bool) (c : Nat)
    (hb : s.rxCurBit = bq) (hbm1 : -1 ≤ bq) (hb4 : bq + 3 ≤ 7)
    (hbc : 2 ≤ s.bitCycles)
    (hc1 : 2 * s.bitCycles ≤ c) (hc2 : c < 3 * s.bitCycles) :
    bitStep level (c : Int) s =
      (true, (c : Int) - ((2 : Nat) : Int) * (s.bitCycles : Int) - (s.bitCycles : Int),
       { s with
         rxCurByte :=
           if level then
             ((if s.rxCurByte &&& 128 ≠ 0 then
                 (s.rxCurByte >>> 2) ||| ((255 <<< (8 - 2)) &&& 255)
               else s.rxCurByte >>> 2) >>> 1) ||| 128
           else
             (if s.rxCurByte &&& 128 ≠ 0 then
                (s.rxCurByte >>> 2) ||| ((255 <<< (8 - 2)) &&& 255)
              else s.rxCurByte >>> 2) >>> 1,
         rxCurBit := bq + 3 }) := by
  have hdiv : c / s.bitCycles = 2 := Nat.div_eq_of_lt_le hc1 (by omega)
  simp only [bitStep, hb, Int.toNat_natCast, hdiv]
  rw [if_pos (by omega : (-1 : Int) ≤ bq ∧ bq < 7)]
  rw [if_pos (by exact_mod_cast (by omega : s.bitCycles ≤ c) :
    ((s.bitCycles : Nat) : Int) ≤ (c : Int))]
  rw [if_neg (by omega : ¬((7 : Int) - bq < ((2 : Nat) : Int)))]
  rw [if_pos (by omega : bq + ((2 : Nat) : Int) < 7)]
  simp only [Prod.mk.injEq, SwsState.mk.injEq, and_true, true_and, eq_self_iff_true]
  omega

/-- From the 8-data-bits-received state (rxCurBit 7), one store iteration and
    one idle iteration of the bit loop deliver the pending byte. -/
theorem bitLoop_store_then_idle (f : Nat) (x : Int) (s3 : SwsState) (bc : Nat)
    (hf : 2 ≤ f) (hb : s3.rxCurBit = 7) (hbcv : s3.bitCycles = bc)
    (hroom : (s3.inPos + 1) % s3.bufSize ≠ s3.outPos)
    (hx : (bc : Int) ≤ x) :
    bitLoop f true x s3 =
      { s3 with rxCurBit := 8,
                buffer := Function.update s3.buffer s3.inPos s3.rxCurByte,
                rxCurByte := 0, inPos := (s3.inPos + 1) % s3.bufSize } := by
  rw [bitLoop_of_pos f (by omega)]
  rw [bitStep_store s3 true x hb hroom]
  rw [if_pos rfl]
  rw [if_pos (by omega : (0 : Int) ≤ x - (s3.bitCycles : Int))]
  rw [bitLoop_of_pos (f - 1) (by omega)]
  rw [bitStep_idle_mark
    { s3 with rxCurBit := 8,
              buffer := Function.update s3.buffer s3.inPos s3.rxCurByte,
              rxCurByte := 0, inPos := (s3.inPos + 1) % s3.bufSize }
    (x - (s3.bitCycles : Int)) rfl]
  rw [if_neg (by simp)]

/-- From a mid-data state with at least (8 - b) bit periods of elapsed time,
    the bit loop infers the clamped hidden bits, stores the byte, and returns
    to idle. -/
theorem bitLoop_complete_from_data (f c : Nat) (s2 : SwsState) (b bc : Nat)
    (hf : 3 ≤ f) (hb : s2.rxCurBit = (b : Int)) (hb6 : b < 7)
    (hbcv : s2.bitCycles = bc) (hbc : 1 ≤ bc)
    (hc : (8 - b) * bc ≤ c)
    (hroom : (s2.inPos + 1) % s2.bufSize ≠ s2.outPos) :
    bitLoop f true (c : Int) s2 =
      { s2 with
        buffer := Function.update s2.buffer s2.inPos
          (if s2.rxCurByte &&& 128 ≠ 0 then
             (s2.rxCurByte >>> (7 - b)) ||| ((255 <<< (8 - (7 - b))) &&& 255)
           else s2.rxCurByte >>> (7 - b)),
        inPos := (s2.inPos + 1) % s2.bufSize,
        rxCurBit := 8, rxCurByte := 0 } := by
  have hsplit : (8 - b) * bc = (7 - b) * bc + bc := by
    have h8 : 8 - b = (7 - b) + 1 := by omega
    rw [h8, Nat.add_mul, Nat.one_mul]
  have h7eq : (7 - b) * s2.bitCycles = (7 - b) * bc := by rw [hbcv]
  have h8eq : (8 - b) * s2.bitCycles = (8 - b) * bc := by rw [hbcv]
  rw [bitLoop_of_pos f (by omega)]
  rw [bitStep_hidden_overshoot s2 b true c hb (by omega) (by omega) (by omega)]
  rw [if_pos rfl]
  rw [if_pos (by omega : (0 : Int) ≤ (c : Int) - (((7 - b) * s2.bitCycles : Nat) : Int))]
  dsimp only
  rw [bitLoop_store_then_idle (f - 1)
    ((c : Int) - (((7 - b) * s2.bitCycles : Nat) : Int))
    { s2 with
      rxCurByte :=
        if s2.rxCurByte &&& 128 ≠ 0 then
          (s2.rxCurByte >>> (7 - b)) ||| ((255 <<< (8 - (7 - b))) &&& 255)
        else s2.rxCurByte >>> (7 - b),
      rxCurBit := 7 }
    bc (by omega) rfl hbcv hroom (by omega)]

/-- A single pending edge whose decoded level is mark, lying at least
    (8 - b) bit periods past the previous edge (after the half-period
    centering), completes the byte under reconstruction: the reconstructor
    infers the clamped hidden bits, stores the byte, and returns to idle. -/
theorem processEvent_completes (s : SwsState) (b : Nat)
    (hinv : s.invert = false)
    (hb : s.rxCurBit = (b : Int)) (hb7 : b ≤ 7)
    (hbc : 1 ≤ s.bitCycles)
    (hlev : (s.isrBuffer s.isrOutPos) &&& 1 = 0)
    (hD31 : u32sub (s.isrBuffer s.isrOutPos) s.isrLastCycle < two31)
    (hDge : s.bitCycles / 2 + (8 - b) * s.bitCycles
      ≤ u32sub (s.isrBuffer s.isrOutPos) s.isrLastCycle)
    (hroom : (s.inPos + 1) % s.bufSize ≠ s.outPos) :
    processEvent s =
      { s with
        buffer := Function.update s.buffer s.inPos
          (if s.rxCurByte &&& 128 ≠ 0 then
             (s.rxCurByte >>> (7 - b)) ||| ((255 <<< (8 - (7 - b))) &&& 255)
           else s.rxCurByte >>> (7 - b)),
        inPos := (s.inPos + 1) % s.bufSize,
        isrOutPos := (s.isrOutPos + 1) % s.isrBufSize,
        rxCurBit := 8, rxCurByte := 0,
        isrLastCycle := s.isrBuffer s.isrOutPos } := by
  simp only [processEvent]
  set w := s.isrBuffer s.isrOutPos with hw
  set D := u32sub w s.isrLastCycle with hD
  set e := s.bitCycles / 2 with he
  have hBpos : 1 ≤ (8 - b) * s.bitCycles := Nat.mul_pos (by omega) (by omega)
  have htoi : toInt32 D = (D : Int) := toInt32_eq_self D hD31
  have hlevd : decide ((w &&& 1) = (if s.invert then 1 else 0)) = true := by
    rw [hinv, hlev]
    simp
  have hcast : toInt32 D - ((e : Nat) : Int) = ((D - e : Nat) : Int) := by
    rw [htoi]
    omega
  rw [hlevd, hcast]
  rw [if_neg (by omega : ¬(((D - e : Nat) : Int) < 0))]
  simp only [Int.toNat_natCast]
  set c := D - e with hc
  have hcge : (8 - b) * s.bitCycles ≤ c := by omega
  rcases Nat.lt_or_ge b 7 with hblt | hbge
  · rw [bitLoop_complete_from_data (c + 2) c
      { s with isrOutPos := (s.isrOutPos + 1) % s.isrBufSize, isrLastCycle := w }
      b s.bitCycles (by omega) hb hblt rfl hbc hcge hroom]
  · have hb7e : b = 7 := by omega
    subst hb7e
    have hX : (if s.rxCurByte &&& 128 ≠ 0 then
        (s.rxCurByte >>> (7 - 7)) ||| ((255 <<< (8 - (7 - 7))) &&& 255)
      else s.rxCurByte >>> (7 - 7)) = s.rxCurByte := by
      have hm : (255 <<< (8 - (7 - 7))) &&& 255 = 0 := by decide
      rw [hm]
      simp
    rw [bitLoop_store_then_idle (c + 2) (c : Int)
      { s with isrOutPos := (s.isrOutPos + 1) % s.isrBufSize, isrLastCycle := w }
      s.bitCycles (by omega) (by exact_mod_cast hb) rfl hroom (by omega)]
    rw [hX]


/-- Claim C2: hidden-bit inference.  First part: an edge event recorded
    exactly 3 bit periods after the previous one, while the cursor is inside
    the data window with at least 3 data bits to go, advances the cursor by
    exactly 3 bits: the event is decoded as 2 hidden bits that repeat the
    last received bit (the accumulator's top bit, replicated by the 192 mask)
    followed by the edge's own level bit — three identical bits when the
    level was constant, with no byte committed and no error flagged.
    Second part (clamping): an edge spanning 20 bit periods right after data
    bit 0 infers only the 7 remaining data bits (the 254 mask replicates the
    last bit into them, clamped at the remaining bit count), stores the byte,
    and returns the cursor to idle (8) instead of overshooting. -/
theorem c2_hidden_bit_inference (s sK : SwsState) (bq : Int)
    (h1inv : s.invert = false)
    (h1b : s.rxCurBit = bq) (h1bm : -1 ≤ bq) (h1b4 : bq + 3 ≤ 7)
    (h1bc : 2 ≤ s.bitCycles)
    (h1w : s.isrBuffer s.isrOutPos = s.isrLastCycle + 3 * s.bitCycles)
    (h1r : s.isrLastCycle + 3 * s.bitCycles < two31)
    (h2inv : sK.invert = false)
    (h2b : sK.rxCurBit = 0)
    (h2bc : 2 ≤ sK.bitCycles)
    (h2lev : (sK.isrBuffer sK.isrOutPos) &&& 1 = 0)
    (h2D : u32sub (sK.isrBuffer sK.isrOutPos) sK.isrLastCycle = 20 * sK.bitCycles)
    (h2r : 20 * sK.bitCycles < two31)
    (h2room : (sK.inPos + 1) % sK.bufSize ≠ sK.outPos) :
    (processEvent s =
      { s with
        isrOutPos := (s.isrOutPos + 1) % s.isrBufSize,
        isrLastCycle := s.isrBuffer s.isrOutPos,
        rxCurBit := bq + 3,
        rxCurByte :=
          (((s.rxCurByte >>> 2) ||| (if s.rxCurByte &&& 128 ≠ 0 then 192 else 0)) >>> 1)
          ||| (if (s.isrBuffer s.isrOutPos) &&& 1 = 0 then 128 else 0) }) ∧
    (processEvent sK =
      { sK with
        buffer := Function.update sK.buffer sK.inPos
          (if sK.rxCurByte &&& 128 ≠ 0 then
             (sK.rxCurByte >>> (7 - 0)) ||| ((255 <<< (8 - (7 - 0))) &&& 255)
           else sK.rxCurByte >>> (7 - 0)),
        inPos := (sK.inPos + 1) % sK.bufSize,
        isrOutPos := (sK.isrOutPos + 1) % sK.isrBufSize,
        rxCurBit := 8, rxCurByte := 0,
        isrLastCycle := sK.isrBuffer sK.isrOutPos }) := by
  constructor
  · have h32 : s.isrLastCycle + 3 * s.bitCycles < two32 := by
      have hlt : two31 < two32 := by decide
      omega
    simp only [processEvent]
    set w := s.isrBuffer s.isrOutPos with hw
    set e := s.bitCycles / 2 with he
    have hD : u32sub w s.isrLastCycle = 3 * s.bitCycles := by
      rw [h1w, u32sub_eq_sub _ _ h32 (Nat.le_add_right _ _)]
      omega
    have htoi : toInt32 (u32sub w s.isrLastCycle) = ((3 * s.bitCycles : Nat) : Int) := by
      rw [hD]
      exact toInt32_eq_self _ (by omega)
    have hcast : toInt32 (u32sub w s.isrLastCycle) - ((e : Nat) : Int)
        = ((3 * s.bitCycles - e : Nat) : Int) := by
      rw [htoi]
      omega
    have hdec : decide ((w &&& 1) = (if s.invert then 1 else 0)) = decide (w &&& 1 = 0) := by
      rw [h1inv]
      simp
    rw [hcast]
    rw [if_neg (by omega : ¬(((3 * s.bitCycles - e : Nat) : Int) < 0))]
    simp only [Int.toNat_natCast]
    rw [hdec]
    have hc1 : 2 * s.bitCycles ≤ 3 * s.bitCycles - e := by omega
    have hc2 : 3 * s.bitCycles - e < 3 * s.bitCycles := by omega
    rw [bitLoop_of_pos (3 * s.bitCycles - e + 2) (by omega)]
    rw [bitStep_hidden_mid
      { s with isrOutPos := (s.isrOutPos + 1) % s.isrBufSize, isrLastCycle := w }
      bq (decide (w &&& 1 = 0)) (3 * s.bitCycles - e)
      h1b h1bm h1b4 h1bc hc1 hc2]
    rw [if_pos rfl]
    rw [if_neg (by omega : ¬((0 : Int) ≤
      ((3 * s.bitCycles - e : Nat) : Int)
        - ((2 : Nat) : Int) * (s.bitCycles : Int) - (s.bitCycles : Int)))]
    have hmask : (255 <<< (8 - 2)) &&& 255 = 192 := by decide
    rw [hmask]
    simp only [decide_eq_true_eq]
    split_ifs <;> simp
  · exact processEvent_completes sK 0 h2inv h2b (by omega) (by omega) h2lev
      (by rw [h2D]; exact h2r) (by rw [h2D]; omega) h2room

/-- Witness for C2: bit 1 of a byte was just received (accumulator 0x40, top
    bit 0), the next edge sits exactly 3 bit periods later and is odd-packed
    (space level): the cursor jumps from 1 to 4 and the accumulator picks up
    two replicated 0 bits and one 0 bit (value 8).  For the clamp part, right
    after bit 0 (accumulator 0x80) an edge 20 bit periods later delivers byte
    0xff (the 7 hidden bits replicate the set top bit) and idles the cursor. -/
theorem c2_hidden_bit_inference_witness :
    (processEvent c2State).rxCurBit = 4 ∧
    (processEvent c2State).rxCurByte = 8 ∧
    (processEvent c2State).inPos = 0 ∧
    (processEvent c2ClampState).rxCurBit = 8 ∧
    (processEvent c2ClampState).buffer 0 = 255 ∧
    (processEvent c2ClampState).inPos = 1 := by
  have h := c2_hidden_bit_inference c2State c2ClampState 1 (by decide) (by decide)
    (by decide) (by decide) (by decide) (by decide) (by decide) (by decide)
    (by decide) (by decide) (by decide) (by decide) (by decide) (by decide)
  obtain ⟨h1, h2⟩ := h
  rw [h1, h2]
  refine ⟨by decide, by decide, by decide, by decide, by decide, by decide⟩


/-- When the stop-bit window has expired and the edge buffer has room, the
    synthesis step appends the packed expected-stop-bit edge and advances the
    write index. -/
theorem synthStopBit_appends (now : Nat) (s : SwsState) (b : Nat)
    (hb : s.rxCurBit = (b : Int)) (hb7 : b ≤ 7)
    (hE32 : s.isrLastCycle + (10 - b) * s.bitCycles < two32)
    (hnow32 : now < two32)
    (hge : s.isrLastCycle + (10 - b) * s.bitCycles ≤ now)
    (hroomIsr : (s.isrInPos + 1) % s.isrBufSize ≠ s.isrOutPos) :
    synthStopBit now s =
      (true, { s with
        isrBuffer := Function.update s.isrBuffer s.isrInPos
          (((s.isrLastCycle + (10 - b) * s.bitCycles) ||| 1)
            ^^^ (if s.invert then 0 else 1)),
        isrInPos := (s.isrInPos + 1) % s.isrBufSize }) := by
  have h10 : ((10 : Int) - (b : Int)).toNat = 10 - b := by omega
  have hdelta : u32sub now s.isrLastCycle = now - s.isrLastCycle :=
    u32sub_eq_sub _ _ hnow32 (by omega)
  have hec : (s.isrLastCycle % two32 + (10 - b) * s.bitCycles) % two32
      = s.isrLastCycle + (10 - b) * s.bitCycles := by
    simp only [two32] at hE32 ⊢
    omega
  simp only [synthStopBit, hb, h10, hdelta]
  rw [if_pos (by omega : (10 - b) * s.bitCycles ≤ now - s.isrLastCycle)]
  rw [if_pos hroomIsr]
  rw [hec]

/-- Claim C3, counterexample: the recovery does not fire when a start bit was
    seen but no data bit has been committed yet (rxCurBit = -1).  With the
    edge buffer empty and far more than the claimed (10 - currentBitIndex)
    bit periods elapsed, rxBits synthesizes nothing: the edge-buffer write
    index stays 0, no byte is delivered, and the cursor stays at -1 — the
    code requires currentBitIndex >= 0, so the claimed condition "a start bit
    was seen but fewer than 8 data bits completed" is too weak. -/
theorem c3_no_synthesis_at_start_bit_counterexample :
    (rxBits 1000000 c3CeState).isrInPos = 0 ∧
    (rxBits 1000000 c3CeState).inPos = 0 ∧
    (rxBits 1000000 c3CeState).rxCurBit = -1 ∧
    c3CeState.rxCurBit = -1 := by
  decide

/-- Claim C3 (amended): whenever the edge buffer is empty, at least one data
    bit has been committed and the byte is incomplete (0 <= currentBitIndex
    <= 7), and the time since the last recorded edge reaches
    (10 - currentBitIndex) bit periods, rxBits synthesizes a terminating edge
    at the expected stop-bit boundary — the packed word
    ((lastEdge + (10-bit)*bitCycles) ||| 1) ^^^ 1, whose inverted-level LSB
    encodes the mark/stop level — feeds it through the decode path, and the
    pending byte (remaining bits replicated from the last received bit) is
    delivered to the byte buffer without any subsequent start bit. -/
theorem c3_stop_bit_recovery_amended (now : Nat) (s : SwsState) (b : Nat)
    (hinv : s.invert = false)
    (hempty : s.isrInPos = s.isrOutPos)
    (hov : s.isrOverflow = false)
    (hb : s.rxCurBit = (b : Int)) (hb7 : b ≤ 7)
    (hbc : 2 ≤ s.bitCycles)
    (h31 : 10 * s.bitCycles < two31)
    (ht32 : s.isrLastCycle + 10 * s.bitCycles < two32)
    (hnow32 : now < two32)
    (hge : s.isrLastCycle + (10 - b) * s.bitCycles ≤ now)
    (hroomIsr : (s.isrInPos + 1) % s.isrBufSize ≠ s.isrOutPos)
    (hroomBuf : (s.inPos + 1) % s.bufSize ≠ s.outPos) :
    rxBits now s =
      { s with
        isrBuffer := Function.update s.isrBuffer s.isrInPos
          (((s.isrLastCycle + (10 - b) * s.bitCycles) ||| 1) ^^^ 1),
        isrInPos := (s.isrInPos + 1) % s.isrBufSize,
        isrOutPos := (s.isrOutPos + 1) % s.isrBufSize,
        isrLastCycle := ((s.isrLastCycle + (10 - b) * s.bitCycles) ||| 1) ^^^ 1,
        rxCurBit := 8, rxCurByte := 0,
        inPos := (s.inPos + 1) % s.bufSize,
        buffer := Function.update s.buffer s.inPos
          (if s.rxCurByte &&& 128 ≠ 0 then
             (s.rxCurByte >>> (7 - b)) ||| ((255 <<< (8 - (7 - b))) &&& 255)
           else s.rxCurByte >>> (7 - b)) } := by
  have hPle : (10 - b) * s.bitCycles ≤ 10 * s.bitCycles :=
    Nat.mul_le_mul_right _ (by omega)
  have hPpos : 1 ≤ (10 - b) * s.bitCycles := Nat.mul_pos (by omega) (by omega)
  have hE32 : s.isrLastCycle + (10 - b) * s.bitCycles < two32 := by omega
  have hifinv : (if s.invert then (0 : Nat) else 1) = 1 := by
    rw [hinv]
    simp
  have ha0 : (s.isrInPos : Int) - (s.isrOutPos : Int) = 0 := by
    rw [hempty]
    omega
  simp only [rxBits, hov, Bool.false_eq_true, if_false]
  rw [ha0]
  rw [if_neg (by omega : ¬((0 : Int) < 0))]
  rw [if_pos (⟨rfl, by omega, hempty, by omega⟩ :
    (0 : Int) = 0 ∧ s.rxCurBit < 8 ∧ s.isrInPos = s.isrOutPos ∧ 0 ≤ s.rxCurBit)]
  rw [synthStopBit_appends now s b hb hb7 hE32 hnow32 hge hroomIsr]
  rw [hifinv]
  rw [if_pos rfl]
  rw [drainLoop_one]
  dsimp only
  obtain ⟨P, hP⟩ : ∃ P, (10 - b) * s.bitCycles = P := ⟨_, rfl⟩
  obtain ⟨A, hA⟩ : ∃ A, (8 - b) * s.bitCycles = A := ⟨_, rfl⟩
  have hsplitPA : P = A + 2 * s.bitCycles := by
    rw [← hP, ← hA]
    have h2 : 10 - b = (8 - b) + 2 := by omega
    rw [h2, Nat.add_mul]
  rw [hP] at hPle hPpos hE32 hge ⊢
  have hupd : Function.update s.isrBuffer s.isrInPos
      (((s.isrLastCycle + P) ||| 1) ^^^ 1) s.isrOutPos
      = ((s.isrLastCycle + P) ||| 1) ^^^ 1 := by
    rw [hempty]
    exact Function.update_same _ _ _
  have hword : ((s.isrLastCycle + P) ||| 1) ^^^ 1
      = 2 * ((s.isrLastCycle + P) / 2) :=
    or_one_xor_one_eq _
  have hword32 : ((s.isrLastCycle + P) ||| 1) ^^^ 1 < two32 := by
    rw [hword]
    omega
  have hwordge : s.isrLastCycle ≤ ((s.isrLastCycle + P) ||| 1) ^^^ 1 := by
    rw [hword]
    omega
  have hDval : u32sub (((s.isrLastCycle + P) ||| 1) ^^^ 1) s.isrLastCycle
      = (((s.isrLastCycle + P) ||| 1) ^^^ 1) - s.isrLastCycle :=
    u32sub_eq_sub _ _ hword32 hwordge
  have hkle : (((s.isrLastCycle + P) ||| 1) ^^^ 1) - s.isrLastCycle ≤ P := by
    rw [hword]
    omega
  have hkge : A + 2 * s.bitCycles - 1
      ≤ (((s.isrLastCycle + P) ||| 1) ^^^ 1) - s.isrLastCycle := by
    rw [hword]
    omega
  have hbc1 : 1 ≤ s.bitCycles := by omega
  have hlevf : (Function.update s.isrBuffer s.isrInPos
      (((s.isrLastCycle + P) ||| 1) ^^^ 1) s.isrOutPos) &&& 1 = 0 := by
    rw [hupd, hword, and_one_eq_mod]
    omega
  have hD31f : u32sub (Function.update s.isrBuffer s.isrInPos
      (((s.isrLastCycle + P) ||| 1) ^^^ 1) s.isrOutPos) s.isrLastCycle < two31 := by
    rw [hupd, hDval]
    omega
  have hDgef : s.bitCycles / 2 + (8 - b) * s.bitCycles
      ≤ u32sub (Function.update s.isrBuffer s.isrInPos
        (((s.isrLastCycle + P) ||| 1) ^^^ 1) s.isrOutPos) s.isrLastCycle := by
    rw [hupd, hDval, hA]
    omega
  rw [processEvent_completes
    { s with
      isrBuffer := Function.update s.isrBuffer s.isrInPos
        (((s.isrLastCycle + P) ||| 1) ^^^ 1),
      isrInPos := (s.isrInPos + 1) % s.isrBufSize }
    b hinv hb hb7 hbc1 hlevf hD31f hDgef hroomBuf]
  dsimp only
  rw [hupd, hov]

/-- Witness for C3 (amended): a byte stuck after data bit 2 (accumulator
    0xa0) with the stop-bit window long expired is delivered as 0xfd (the
    five remaining bits replicated from the set last bit) and the cursor
    returns to idle. -/
theorem c3_stop_bit_recovery_amended_witness :
    (rxBits 100000 c3State).inPos = 1 ∧
    (rxBits 100000 c3State).buffer 0 = 253 ∧
    (rxBits 100000 c3State).rxCurBit = 8 ∧
    (rxBits 100000 c3State).isrInPos = 1 ∧
    (rxBits 100000 c3State).isrOutPos = 1 := by
  have h := c3_stop_bit_recovery_amended 100000 c3State 2 (by decide) (by decide)
    (by decide) (by decide) (by decide) (by decide) (by decide) (by decide)
    (by decide) (by decide) (by decide) (by decide)
  rw [h]
  refine ⟨by decide, by decide, by decide, by decide, by decide⟩

end SoftSerial
